import Mathlib

/-!
Verification of the crc32c-cli repository (src/main.rs) against its
natural-language specification.

The development is a shallow embedding:

* the CRC32C (Castagnoli) checksum and the combination algebra provided by
  the external `crc32c` crate are modelled bit-precisely over `Nat`
  (values are kept below 2^32 by construction of the operations);
* `parallel_read` from src/main.rs is modelled as a fuelled round loop over
  a `Device` (file contents plus the read behaviour of the underlying
  OS/device: possible short reads and possible read failures);
* `main`s file loop and the stdin fallback are modelled as pure functions
  producing the printed lines and the resulting exit status.
-/

/-! ### CRC32C bit-level model

`crc32c::crc32c` computes the CRC-32C (Castagnoli) checksum: reflected
polynomial 0x82F63B78, initial value 0xFFFFFFFF, final xor 0xFFFFFFFF.
`crc32c::crc32c_combine crc_a crc_b len_b` returns the checksum of the
concatenation of a segment with checksum `crc_a` and a segment of `len_b`
bytes with checksum `crc_b`; it equals shifting `crc_a` through `len_b`
zero bytes of raw register updates and xoring with `crc_b`. -/

set_option maxRecDepth 2000

instance {ε α : Type} [DecidableEq ε] [DecidableEq α] : DecidableEq (Except ε α) := fun a b =>
  match a, b with
  | Except.ok x, Except.ok y =>
    if h : x = y then isTrue (by rw [h]) else isFalse (by intro hh; injection hh; contradiction)
  | Except.ok _, Except.error _ => isFalse (by intro h; exact Except.noConfusion h)
  | Except.error _, Except.ok _ => isFalse (by intro h; exact Except.noConfusion h)
  | Except.error x, Except.error y =>
    if h : x = y then isTrue (by rw [h]) else isFalse (by intro hh; injection hh; contradiction)

def CRC_POLY : Nat := 0x82F63B78

def CRC_INIT : Nat := 0xFFFFFFFF

/-- One reflected CRC register bit-step. -/
def bitstep (s : Nat) : Nat := (s >>> 1) ^^^ (if s &&& 1 = 1 then CRC_POLY else 0)

/-- Eight bit-steps: the register update for one zero byte. -/
def step0 (s : Nat) : Nat := bitstep^[8] s

/-- The register update for one data byte. -/
def crcStep (s b : Nat) : Nat := step0 (s ^^^ b)

/-- Run the raw (unconditioned) CRC register over a byte list. -/
def crcRun (s : Nat) (data : List Nat) : Nat := data.foldl crcStep s

/-- `crc32c::crc32c`: the conditioned CRC-32C of a byte list. -/
def crc32c (data : List Nat) : Nat := crcRun CRC_INIT data ^^^ CRC_INIT

/-- `crc32c::crc32c_append`: continue a checksum over further bytes. -/
def crc32c_append (crc : Nat) (data : List Nat) : Nat :=
  crcRun (crc ^^^ CRC_INIT) data ^^^ CRC_INIT

/-- Shift a register value through `n` zero bytes. -/
def zshift (s : Nat) (n : Nat) : Nat := step0^[n] s

/-- `crc32c::crc32c_combine`. -/
def crc32c_combine (crc_a crc_b : Nat) (len_b : Nat) : Nat :=
  zshift crc_a len_b ^^^ crc_b

/-! ### Linearity of the CRC register over xor -/

theorem nat_xor_cancel_right (a b : Nat) : a ^^^ b ^^^ b = a := by
  rw [Nat.xor_assoc, Nat.xor_self, Nat.xor_zero]

theorem nat_xor_right_comm (a b c : Nat) : a ^^^ b ^^^ c = a ^^^ c ^^^ b := by
  rw [Nat.xor_assoc, Nat.xor_comm b c, ← Nat.xor_assoc]

theorem bitstep_xor (a b : Nat) : bitstep (a ^^^ b) = bitstep a ^^^ bitstep b := by
  unfold bitstep
  have hshift : (a ^^^ b) >>> 1 = a >>> 1 ^^^ b >>> 1 := by
    apply Nat.eq_of_testBit_eq
    intro i
    simp [Nat.testBit_shiftRight, Nat.testBit_xor]
  have hand : (a ^^^ b) &&& 1 = (a &&& 1) ^^^ (b &&& 1) := Nat.and_xor_distrib_right
  have ha := Nat.and_one_is_mod a
  have hb := Nat.and_one_is_mod b
  rw [hshift, hand, ha, hb]
  rcases Nat.mod_two_eq_zero_or_one a with ha2 | ha2 <;>
    rcases Nat.mod_two_eq_zero_or_one b with hb2 | hb2 <;>
      simp [ha2, hb2, Nat.xor_zero, Nat.xor_assoc]
  · exact Nat.xor_comm _ _
  · rw [Nat.xor_comm (b >>> 1) CRC_POLY, ← Nat.xor_assoc, Nat.xor_self, Nat.zero_xor]

theorem bitstep_iterate_xor (n a b : Nat) :
    bitstep^[n] (a ^^^ b) = bitstep^[n] a ^^^ bitstep^[n] b := by
  induction n generalizing a b with
  | zero => rfl
  | succ n ih =>
    rw [Function.iterate_succ_apply, Function.iterate_succ_apply,
      Function.iterate_succ_apply, bitstep_xor, ih]

theorem step0_xor (a b : Nat) : step0 (a ^^^ b) = step0 a ^^^ step0 b :=
  bitstep_iterate_xor 8 a b

theorem step0_zero : step0 0 = 0 := by decide

theorem zshift_zero_left (n : Nat) : zshift 0 n = 0 := by
  induction n with
  | zero => rfl
  | succ n ih => unfold zshift at *; rw [Function.iterate_succ_apply, step0_zero, ih]

theorem crcStep_xor (a b x : Nat) : crcStep (a ^^^ b) x = crcStep a x ^^^ crcStep b 0 := by
  unfold crcStep
  rw [Nat.xor_zero, nat_xor_right_comm, step0_xor]

theorem crcRun_xor (L : List Nat) (a b : Nat) :
    crcRun (a ^^^ b) L = crcRun a L ^^^ crcRun b (List.replicate L.length 0) := by
  induction L generalizing a b with
  | nil => rfl
  | cons x L ih =>
    rw [List.length_cons, List.replicate_succ]
    show crcRun (crcStep (a ^^^ b) x) L =
      crcRun (crcStep a x) L ^^^ crcRun (crcStep b 0) (List.replicate L.length 0)
    rw [crcStep_xor, ih]

theorem crcRun_zeros (n s : Nat) : crcRun s (List.replicate n 0) = zshift s n := by
  induction n generalizing s with
  | zero => rfl
  | succ n ih =>
    rw [List.replicate_succ]
    show crcRun (crcStep s 0) (List.replicate n 0) = zshift s (n + 1)
    rw [ih]
    unfold zshift crcStep
    rw [Nat.xor_zero, Function.iterate_succ_apply]

theorem crcRun_append (s : Nat) (A B : List Nat) :
    crcRun s (A ++ B) = crcRun (crcRun s A) B := by
  unfold crcRun
  rw [List.foldl_append]

/-- Correctness of the external combine algebra: combining the checksums of
two adjacent segments yields the checksum of their concatenation. -/
theorem crc32c_combine_correct (A B : List Nat) :
    crc32c (A ++ B) = crc32c_combine (crc32c A) (crc32c B) B.length := by
  unfold crc32c crc32c_combine
  rw [crcRun_append]
  generalize crcRun CRC_INIT A = r
  have hr : r = CRC_INIT ^^^ (r ^^^ CRC_INIT) := by
    rw [Nat.xor_comm CRC_INIT (r ^^^ CRC_INIT), nat_xor_cancel_right]
  conv_lhs => rw [hr]
  rw [crcRun_xor, crcRun_zeros]
  rw [Nat.xor_comm (crcRun CRC_INIT B) (zshift (r ^^^ CRC_INIT) B.length), Nat.xor_assoc]

theorem crc32c_nil : crc32c [] = 0 := by decide

theorem crc32c_combine_zero (c : Nat) : crc32c_combine c 0 0 = c := by
  unfold crc32c_combine zshift
  rw [Function.iterate_zero_apply, Nat.xor_zero]

theorem crc32c_append_spec (A B : List Nat) :
    crc32c_append (crc32c A) B = crc32c (A ++ B) := by
  unfold crc32c_append crc32c
  rw [crcRun_append, nat_xor_cancel_right]

/-! ### Model of src/main.rs

`BLOCK_SIZE` is `16 << 20` as in the source.  A `Device` is a file opened
read-only together with the behaviour of `File::read_at` on it: `content`
is the byte content (so the metadata size query returns `content.length`),
`sr offset` is how many bytes the device is willing to deliver for the
read at `offset` (a short read delivers fewer than the available bytes),
and `fail offset` tells whether the positional read at `offset` fails with
an I/O error.  A plain healthy file is `honest content`. -/

def BLOCK_SIZE : Nat := 16 <<< 20

theorem BLOCK_SIZE_eq : BLOCK_SIZE = 16777216 := by decide

structure Device where
  content : List Nat
  sr : Nat → Nat
  fail : Nat → Bool

/-- Bytes available for one block read at `offset`: at most a block, at most
to end of file. -/
def avail (dev : Device) (offset : Nat) : Nat :=
  min (dev.content.length - offset) BLOCK_SIZE

/-- The bytes `file.read_at(&mut buf, offset)` places in the buffer: a prefix
of the file data at `offset`, truncated by the device's short-read behaviour. -/
def readBytes (dev : Device) (offset : Nat) : List Nat :=
  (dev.content.drop offset).take (min (dev.sr offset) (avail dev offset))

/-- The body of the worker closure (src/main.rs lines 44-61): one positional
read, the optional `fill_zero` padding, the local CRC, and the terminal flag
`n != BLOCK_SIZE`.  Errors carry the `with_context` message. -/
def readResult (dev : Device) (path : String) (fz : Bool) (offset : Nat) :
    Except String (Nat × Nat × Bool) :=
  if dev.fail offset then
    Except.error ("read source file failed: " ++ path)
  else
    let buf0 := readBytes dev offset
    let fileSize := dev.content.length
    if fz ∧ offset < fileSize ∧ buf0.length < min (fileSize - offset) BLOCK_SIZE then
      let expect := min (fileSize - offset) BLOCK_SIZE
      let buf := buf0 ++ List.replicate (expect - buf0.length) 0
      Except.ok (expect, crc32c buf, expect != BLOCK_SIZE)
    else
      Except.ok (buf0.length, crc32c buf0, buf0.length != BLOCK_SIZE)

/-- The closure of the `try_fold` at src/main.rs lines 66-80. -/
def foldStep (a : Nat × Nat × Bool) (b : Except String (Nat × Nat × Bool)) :
    Except String (Nat × Nat × Bool) :=
  if a.2.2 then Except.ok a
  else
    match b with
    | Except.ok (len_b, crc_b, finished_b) =>
        Except.ok (a.1 + len_b, crc32c_combine a.2.1 crc_b len_b, finished_b)
    | Except.error e => Except.error e

/-- `Iterator::try_fold` over the round's result vector, inlined. -/
def tryFoldAux (acc : Nat × Nat × Bool) :
    List (Except String (Nat × Nat × Bool)) → Except String (Nat × Nat × Bool)
  | [] => Except.ok acc
  | b :: rest =>
    match foldStep acc b with
    | Except.ok a2 => tryFoldAux a2 rest
    | Except.error e => Except.error e

def tryFold (v : List (Except String (Nat × Nat × Bool))) :
    Except String (Nat × Nat × Bool) :=
  tryFoldAux (0, 0, false) v

/-- The result vector of one round: slot `i` is written by the task reading
at `start + i * BLOCK_SIZE`.  The scoped pool joins all tasks before the
fold, and each slot is a pure function of the device and its offset, so the
vector is independent of which pool thread ran which task. -/
def roundResults (dev : Device) (path : String) (fz : Bool) (T start : Nat) :
    List (Except String (Nat × Nat × Bool)) :=
  (List.range T).map fun i => readResult dev path fz (start + i * BLOCK_SIZE)

/-- The round loop of `parallel_read` (src/main.rs lines 38-86), with an
explicit fuel bounding the number of rounds; `none` means the fuel ran out
before the loop returned. -/
def parallelReadFuel (fuel : Nat) (dev : Device) (path : String) (T : Nat)
    (fz : Bool) (start crc : Nat) : Option (Except String Nat) :=
  match fuel with
  | 0 => none
  | fuel + 1 =>
    match tryFold (roundResults dev path fz T start) with
    | Except.error e => some (Except.error e)
    | Except.ok (len, crcR, finished) =>
      if finished then some (Except.ok (crc32c_combine crc crcR len))
      else parallelReadFuel fuel dev path T fz (start + len) (crc32c_combine crc crcR len)

/-- A healthy file: every read delivers all available bytes and never fails. -/
def honest (content : List Nat) : Device :=
  ⟨content, fun _ => BLOCK_SIZE, fun _ => false⟩

/-- `parallel_read` on a healthy file, with enough fuel (proved sufficient
for any thread count `T ≥ 1`). -/
def parallel_read (content : List Nat) (path : String) (T : Nat) (fz : Bool) :
    Option (Except String Nat) :=
  parallelReadFuel (content.length + 1) (honest content) path T fz 0 0

/-- Sum of the `bytes_read` fields up to and including the first terminal
result: the number of bytes a round accounts for. -/
def consumedLen : List (Nat × Nat × Bool) → Nat
  | [] => 0
  | (n, _, f) :: rest => if f then n else n + consumedLen rest

/-! #### Model of `main` -/

def hexDigit (d : Nat) : Char :=
  if d < 10 then Char.ofNat (48 + d) else Char.ofNat (55 + d)

/-- The `{:08X}` format: eight uppercase hexadecimal digits. -/
def toHex8 (n : Nat) : String :=
  String.mk ((List.range 8).map fun i => hexDigit (n / 16 ^ (7 - i) % 16))

/-- The path loop of `main` (src/main.rs lines 106-110).  Each input is a
path together with the outcome of `open`: an open error, or a device.
Returns the printed lines and the final result, or `none` if the fuel given
to `parallelReadFuel` ran out.  The `?` on `open` and on `parallel_read`
stops the loop at the first error. -/
def mainRun (fuel T : Nat) (fz : Bool) :
    List (String × Except String Device) → Option (List String × Except String Unit)
  | [] => some ([], Except.ok ())
  | (path, openR) :: rest =>
    match openR with
    | Except.error _ => some ([], Except.error ("Failed to open file " ++ path))
    | Except.ok dev =>
      match parallelReadFuel fuel dev path T fz 0 0 with
      | none => none
      | some (Except.error e) => some ([], Except.error e)
      | some (Except.ok crc) =>
        match mainRun fuel T fz rest with
        | none => none
        | some (lines, r) => some ((toHex8 crc ++ " " ++ path) :: lines, r)

/-- The stdin fallback (src/main.rs lines 112-126).  `lines` are the chunks
successive `read_line` calls deliver (each nonempty, newline-terminated
except possibly the last).  Crucially the source never clears `line`
between iterations and `read_line` appends, so iteration `k` hashes the
concatenation of the first `k` chunks. -/
def stdinLoop (crc : Nat) (line : List Nat) : List (List Nat) → Nat
  | [] => crc
  | l :: rest => stdinLoop (crc32c_append crc (line ++ l)) (line ++ l) rest

def stdin_crc (lines : List (List Nat)) : Nat := stdinLoop 0 [] lines

/-- The line printed by the stdin fallback. -/
def stdinOut (lines : List (List Nat)) : String := toHex8 (stdin_crc lines) ++ " -"

/-! ### Structural lemmas about rounds and the fold -/

theorem roundResults_zero (dev : Device) (path : String) (fz : Bool) (s : Nat) :
    roundResults dev path fz 0 s = [] := rfl

theorem roundResults_succ (dev : Device) (path : String) (fz : Bool) (t s : Nat) :
    roundResults dev path fz (t + 1) s =
      readResult dev path fz s :: roundResults dev path fz t (s + BLOCK_SIZE) := by
  unfold roundResults
  rw [List.range_succ_eq_map, List.map_cons, List.map_map]
  have h0 : s + 0 * BLOCK_SIZE = s := by omega
  have hf : (fun i => readResult dev path fz (s + i * BLOCK_SIZE)) ∘ Nat.succ =
      fun i => readResult dev path fz (s + BLOCK_SIZE + i * BLOCK_SIZE) := by
    funext i
    simp only [Function.comp_apply, Nat.succ_eq_add_one]
    rw [show s + (i + 1) * BLOCK_SIZE = s + BLOCK_SIZE + i * BLOCK_SIZE from by ring]
  rw [hf, h0]

/-- Once the accumulator is terminal, the rest of the round is discarded,
whatever it contains — further lengths, CRCs and even errors are ignored. -/
theorem tryFoldAux_finished (la ca : Nat) (v : List (Except String (Nat × Nat × Bool))) :
    tryFoldAux (la, ca, true) v = Except.ok (la, ca, true) := by
  induction v with
  | nil => rfl
  | cons b rest ih =>
    show tryFoldAux (la, ca, true) (b :: rest) = _
    unfold tryFoldAux foldStep
    simp only [if_pos]
    exact ih

theorem tryFoldAux_len_mono (v : List (Except String (Nat × Nat × Bool))) :
    ∀ la ca fa l c f, tryFoldAux (la, ca, fa) v = Except.ok (l, c, f) → la ≤ l := by
  induction v with
  | nil =>
    intro la ca fa l c f h
    unfold tryFoldAux at h
    injection h with h
    injection h with h1 h2
    omega
  | cons b rest ih =>
    intro la ca fa l c f h
    unfold tryFoldAux foldStep at h
    by_cases hfa : fa
    · subst hfa
      rw [if_pos rfl] at h
      simp only at h
      rw [tryFoldAux_finished] at h
      injection h with h
      injection h with h1 h2
      omega
    · rw [if_neg (by simpa using hfa)] at h
      simp only at h
      match b with
      | Except.ok (lb, cb, fb) =>
        simp only at h
        have := ih (la + lb) (crc32c_combine ca cb lb) fb l c f h
        omega
      | Except.error e =>
        simp only at h
        exact Except.noConfusion h

/-- Shape of a successful worker result: the terminal flag is exactly
`bytes_read != BLOCK_SIZE`, and `bytes_read` never exceeds the bytes
between the offset and end of file. -/
theorem readResult_ok_shape (dev : Device) (path : String) (fz : Bool) (o n c : Nat) (f : Bool)
    (h : readResult dev path fz o = Except.ok (n, c, f)) :
    f = (n != BLOCK_SIZE) ∧ n ≤ dev.content.length - o := by
  unfold readResult at h
  by_cases hfail : dev.fail o
  · rw [if_pos hfail] at h
    exact absurd h (by simp)
  · rw [if_neg hfail] at h
    simp only at h
    split at h
    · injection h with h
      injection h with h1 h
      injection h with h2 h3
      subst h1; subst h2; subst h3
      exact ⟨rfl, Nat.le_trans (Nat.min_le_left _ _) (Nat.le_refl _)⟩
    · injection h with h
      injection h with h1 h
      injection h with h2 h3
      subst h1; subst h2; subst h3
      refine ⟨rfl, ?_⟩
      unfold readBytes
      rw [List.length_take, List.length_drop]
      exact Nat.min_le_right _ _

/-! ### The honest-device (healthy file) behaviour -/

theorem readResult_honest (content : List Nat) (path : String) (fz : Bool) (o : Nat) :
    readResult (honest content) path fz o =
      Except.ok (min (content.length - o) BLOCK_SIZE,
        crc32c ((content.drop o).take (min (content.length - o) BLOCK_SIZE)),
        (min (content.length - o) BLOCK_SIZE) != BLOCK_SIZE) := by
  have hsr : (honest content).sr o = BLOCK_SIZE := rfl
  have hco : (honest content).content = content := rfl
  have hbytes : readBytes (honest content) o =
      (content.drop o).take (min (content.length - o) BLOCK_SIZE) := by
    unfold readBytes avail
    rw [hsr, hco, Nat.min_eq_right (Nat.min_le_right _ _)]
  have hlen : (readBytes (honest content) o).length = min (content.length - o) BLOCK_SIZE := by
    rw [hbytes, List.length_take, List.length_drop]
    exact Nat.min_eq_left (Nat.min_le_left _ _)
  unfold readResult
  rw [if_neg (by simp [honest])]
  rw [if_neg]
  · rw [hlen, hbytes]
  · intro hcond
    rw [hco, hlen] at hcond
    exact absurd hcond.2.2 (Nat.lt_irrefl _)

/-- Folding one round of a healthy file from an accumulator whose CRC is the
checksum of the bytes `X` already folded in this round: the fold consumes
exactly `min (size - s) (T * BLOCK_SIZE)` further bytes, its CRC is the
checksum of the correspondingly extended byte segment, and it ends terminal
exactly when the file ends strictly inside the round's span. -/
theorem tryFoldAux_honest (content : List Nat) (path : String) (fz : Bool) :
    ∀ (T s la : Nat) (X : List Nat),
      tryFoldAux (la, crc32c X, false) (roundResults (honest content) path fz T s) =
        Except.ok (la + min (content.length - s) (T * BLOCK_SIZE),
          crc32c (X ++ (content.drop s).take (min (content.length - s) (T * BLOCK_SIZE))),
          decide (content.length - s < T * BLOCK_SIZE)) := by
  intro T
  induction T with
  | zero =>
    intro s la X
    rw [roundResults_zero]
    unfold tryFoldAux
    simp [BLOCK_SIZE_eq]
  | succ t ih =>
    intro s la X
    rw [roundResults_succ, readResult_honest]
    have hYlen : ((content.drop s).take (min (content.length - s) BLOCK_SIZE)).length =
        min (content.length - s) BLOCK_SIZE := by
      rw [List.length_take, List.length_drop]
      exact Nat.min_eq_left (Nat.min_le_left _ _)
    have hcomb :=
      (crc32c_combine_correct X ((content.drop s).take (min (content.length - s) BLOCK_SIZE))).symm
    rw [hYlen] at hcomb
    show tryFoldAux (la, crc32c X, false) (_ :: _) = _
    unfold tryFoldAux foldStep
    simp only [if_neg (by exact Bool.false_ne_true)]
    by_cases hc : BLOCK_SIZE ≤ content.length - s
    · have hm : min (content.length - s) BLOCK_SIZE = BLOCK_SIZE := Nat.min_eq_right hc
      rw [hm] at hcomb
      simp only [hm, bne_self_eq_false]
      rw [hcomb]
      rw [ih (s + BLOCK_SIZE) (la + BLOCK_SIZE) (X ++ (content.drop s).take BLOCK_SIZE)]
      have e1 : la + BLOCK_SIZE + min (content.length - (s + BLOCK_SIZE)) (t * BLOCK_SIZE) =
          la + min (content.length - s) ((t + 1) * BLOCK_SIZE) := by
        rw [BLOCK_SIZE_eq] at *
        omega
      have e2 : (X ++ (content.drop s).take BLOCK_SIZE) ++
            (content.drop (s + BLOCK_SIZE)).take (min (content.length - (s + BLOCK_SIZE)) (t * BLOCK_SIZE)) =
          X ++ (content.drop s).take (min (content.length - s) ((t + 1) * BLOCK_SIZE)) := by
        rw [List.append_assoc]
        have hdd : content.drop (s + BLOCK_SIZE) = (content.drop s).drop BLOCK_SIZE := by
          rw [List.drop_drop, Nat.add_comm]
        rw [hdd, ← List.take_add]
        have e3 : BLOCK_SIZE + min (content.length - (s + BLOCK_SIZE)) (t * BLOCK_SIZE) =
            min (content.length - s) ((t + 1) * BLOCK_SIZE) := by
          rw [BLOCK_SIZE_eq] at *
          omega
        rw [e3]
      have e4 : decide (content.length - (s + BLOCK_SIZE) < t * BLOCK_SIZE) =
          decide (content.length - s < (t + 1) * BLOCK_SIZE) := by
        apply decide_eq_decide.mpr
        rw [BLOCK_SIZE_eq] at *
        omega
      rw [e1, e2, e4]
    · have hlt : content.length - s < BLOCK_SIZE := Nat.lt_of_not_le hc
      have hm : min (content.length - s) BLOCK_SIZE = content.length - s :=
        Nat.min_eq_left (Nat.le_of_lt hlt)
      rw [hm] at hcomb
      simp only [hm]
      have hbne : ((content.length - s) != BLOCK_SIZE) = true :=
        bne_iff_ne.mpr (Nat.ne_of_lt hlt)
      rw [hbne]
      show tryFoldAux (la + (content.length - s), _, true) _ = _
      rw [tryFoldAux_finished, hcomb]
      have em : min (content.length - s) ((t + 1) * BLOCK_SIZE) = content.length - s := by
        rw [BLOCK_SIZE_eq] at *
        omega
      have ed : decide (content.length - s < (t + 1) * BLOCK_SIZE) = true := by
        simp only [decide_eq_true_eq]
        rw [BLOCK_SIZE_eq] at *
        omega
      conv_rhs => rw [em, ed]

/-- The round loop on a healthy file: starting at cursor `s ≤ size` with the
running checksum of the first `s` bytes, with more fuel than bytes left, the
loop returns the sequential checksum of the whole file. -/
theorem parallelReadFuel_honest (content : List Nat) (path : String) (T : Nat) (fz : Bool)
    (hT : 1 ≤ T) :
    ∀ fuel s c, content.length - s < fuel → s ≤ content.length →
      c = crc32c (content.take s) →
      parallelReadFuel fuel (honest content) path T fz s c =
        some (Except.ok (crc32c content)) := by
  intro fuel
  induction fuel with
  | zero =>
    intro s c hfuel hs hc
    omega
  | succ fuel ih =>
    intro s c hfuel hs hc
    have hround := tryFoldAux_honest content path fz T s 0 []
    rw [crc32c_nil] at hround
    have htf : tryFold (roundResults (honest content) path fz T s) =
        Except.ok (min (content.length - s) (T * BLOCK_SIZE),
          crc32c ((content.drop s).take (min (content.length - s) (T * BLOCK_SIZE))),
          decide (content.length - s < T * BLOCK_SIZE)) := by
      unfold tryFold
      rw [hround]
      rw [Nat.zero_add, List.nil_append]
    show parallelReadFuel (fuel + 1) (honest content) path T fz s c = _
    unfold parallelReadFuel
    rw [htf]
    simp only
    have hYlen : ((content.drop s).take (min (content.length - s) (T * BLOCK_SIZE))).length =
        min (content.length - s) (T * BLOCK_SIZE) := by
      rw [List.length_take, List.length_drop]
      exact Nat.min_eq_left (Nat.min_le_left _ _)
    have hcomb := (crc32c_combine_correct (content.take s)
      ((content.drop s).take (min (content.length - s) (T * BLOCK_SIZE)))).symm
    rw [hYlen] at hcomb
    rw [← List.take_add] at hcomb
    rw [hc, hcomb]
    by_cases hfin : content.length - s < T * BLOCK_SIZE
    · rw [if_pos (by simp [hfin])]
      have hm : min (content.length - s) (T * BLOCK_SIZE) = content.length - s :=
        Nat.min_eq_left (Nat.le_of_lt hfin)
      rw [hm]
      rw [show s + (content.length - s) = content.length from by omega]
      rw [List.take_length]
    · rw [if_neg (by simp [hfin])]
      have hm : min (content.length - s) (T * BLOCK_SIZE) = T * BLOCK_SIZE :=
        Nat.min_eq_right (by omega)
    
      rw [hm]
      apply ih
      · have hTB : 1 ≤ T * BLOCK_SIZE := by
          rw [BLOCK_SIZE_eq]
          have := Nat.mul_le_mul hT (Nat.le_refl 16777216)
          omega
        omega
      · omega
      · rfl

theorem crc32c_combine_zero_left (c n : Nat) : crc32c_combine 0 c n = c := by
  unfold crc32c_combine
  rw [zshift_zero_left, Nat.zero_xor]

theorem tryFold_cons_ok (n0 c0 : Nat) (f0 : Bool)
    (rest : List (Except String (Nat × Nat × Bool))) :
    tryFold (Except.ok (n0, c0, f0) :: rest) =
      tryFoldAux (n0, crc32c_combine 0 c0 n0, f0) rest := by
  show tryFoldAux (0 + n0, crc32c_combine 0 c0 n0, f0) rest = _
  rw [Nat.zero_add]

theorem tryFold_cons_error (e : String)
    (rest : List (Except String (Nat × Nat × Bool))) :
    tryFold (Except.error e :: rest) = Except.error e := rfl

/-- With at least one worker, every round either errors out, ends the loop,
or advances the cursor by at least one block: the loop always returns within
`size + 2` rounds, on any device. -/
theorem parallelReadFuel_isSome (dev : Device) (path : String) (fz : Bool) (T : Nat)
    (hT : 1 ≤ T) :
    ∀ fuel s c, dev.content.length - s + 2 ≤ fuel →
      (parallelReadFuel fuel dev path T fz s c).isSome = true := by
  intro fuel
  induction fuel with
  | zero =>
    intro s c h
    omega
  | succ fuel ih =>
    intro s c hfuel
    show (parallelReadFuel (fuel + 1) dev path T fz s c).isSome = true
    unfold parallelReadFuel
    cases htf : tryFold (roundResults dev path fz T s) with
    | error e => simp
    | ok r =>
      obtain ⟨len, crcR, fin⟩ := r
      cases fin with
      | true => simp
      | false =>
        simp only [if_neg (by exact Bool.false_ne_true), Option.isSome_some]
        obtain ⟨t, rfl⟩ : ∃ t, T = t + 1 := ⟨T - 1, by omega⟩
        rw [roundResults_succ] at htf
        cases hr : readResult dev path fz s with
        | error e =>
          rw [hr, tryFold_cons_error] at htf
          exact absurd htf (by simp)
        | ok trip =>
          obtain ⟨n0, c0, f0⟩ := trip
          rw [hr, tryFold_cons_ok] at htf
          cases f0 with
          | true =>
            rw [tryFoldAux_finished] at htf
            injection htf with htf
            injection htf with h1 htf
            injection htf with h2 h3
            exact absurd h3 (by simp)
          | false =>
            have hshape := readResult_ok_shape dev path fz s n0 c0 false hr
            have hn0 : n0 = BLOCK_SIZE := by
              have := hshape.1
              rw [eq_comm, bne_eq_false_iff_eq] at this
              exact this
            have hlen := tryFoldAux_len_mono _ _ _ _ _ _ _ htf
            have hbd := hshape.2
            apply ih
            rw [BLOCK_SIZE_eq] at hn0
            omega

/-- With `--threads 0` every round folds zero results, consumes zero bytes
and is never terminal: the loop never returns, whatever the fuel. -/
theorem parallelReadFuel_zero_threads (dev : Device) (path : String) (fz : Bool) :
    ∀ fuel s c, parallelReadFuel fuel dev path 0 fz s c = none := by
  intro fuel
  induction fuel with
  | zero => intro s c; rfl
  | succ fuel ih =>
    intro s c
    show parallelReadFuel fuel dev path 0 fz (s + 0) (crc32c_combine c 0 0) = none
    exact ih _ _

/-- On a healthy file the `fill_zero` flag is irrelevant: reads are never
short, so the padding branch is never taken. -/
theorem roundResults_honest_fz (content : List Nat) (path : String) (fz : Bool) (T s : Nat) :
    roundResults (honest content) path fz T s = roundResults (honest content) path false T s := by
  unfold roundResults
  have hf : (fun i => readResult (honest content) path fz (s + i * BLOCK_SIZE)) =
      fun i => readResult (honest content) path false (s + i * BLOCK_SIZE) := by
    funext i
    rw [readResult_honest, readResult_honest]
  rw [hf]

theorem parallelReadFuel_honest_fz (content : List Nat) (path : String) (T : Nat) (fz : Bool) :
    ∀ fuel s c, parallelReadFuel fuel (honest content) path T fz s c =
      parallelReadFuel fuel (honest content) path T false s c := by
  intro fuel
  induction fuel with
  | zero => intro s c; rfl
  | succ fuel ih =>
    intro s c
    show parallelReadFuel (fuel + 1) (honest content) path T fz s c =
      parallelReadFuel (fuel + 1) (honest content) path T false s c
    unfold parallelReadFuel
    rw [roundResults_honest_fz content path fz T s]
    cases htf : tryFold (roundResults (honest content) path false T s) with
    | error e => rfl
    | ok r =>
      obtain ⟨len, crcR, fin⟩ := r
      cases fin with
      | true => rfl
      | false =>
        simp only [if_neg (by exact Bool.false_ne_true)]
        exact ih _ _

theorem consumedLen_cons (n cr : Nat) (f : Bool) (rest : List (Nat × Nat × Bool)) :
    consumedLen ((n, cr, f) :: rest) = if f then n else n + consumedLen rest := rfl

/-- The length accounted by the fold is exactly the sum of the `bytes_read`
fields up to and including the first terminal result. -/
theorem tryFoldAux_map_ok (rs : List (Nat × Nat × Bool)) :
    ∀ la ca, ∃ c f, tryFoldAux (la, ca, false) (rs.map Except.ok) =
      Except.ok (la + consumedLen rs, c, f) := by
  induction rs with
  | nil =>
    intro la ca
    exact ⟨ca, false, rfl⟩
  | cons r rest ih =>
    intro la ca
    obtain ⟨n, cr, f⟩ := r
    cases f with
    | true =>
      refine ⟨crc32c_combine ca cr n, true, ?_⟩
      show tryFoldAux (la + n, crc32c_combine ca cr n, true) (rest.map Except.ok) = _
      rw [tryFoldAux_finished, consumedLen_cons, if_pos rfl]
    | false =>
      obtain ⟨c, f2, hc⟩ := ih (la + n) (crc32c_combine ca cr n)
      refine ⟨c, f2, ?_⟩
      show tryFoldAux (la + n, crc32c_combine ca cr n, false) (rest.map Except.ok) = _
      rw [hc, consumedLen_cons, if_neg (by exact Bool.false_ne_true), ← Nat.add_assoc]

theorem tryFold_map_ok (rs : List (Nat × Nat × Bool)) :
    ∃ c f, tryFold (rs.map Except.ok) = Except.ok (consumedLen rs, c, f) := by
  obtain ⟨c, f, h⟩ := tryFoldAux_map_ok rs 0 0
  rw [Nat.zero_add] at h
  exact ⟨c, f, h⟩

/-- If worker `j` fails and every worker before it returns a full
(non-terminal) block, the fold of the round surfaces the error. -/
theorem tryFoldAux_reaches_error (dev : Device) (path : String) (fz : Bool) :
    ∀ (j T s la ca : Nat), j < T →
      dev.fail (s + j * BLOCK_SIZE) = true →
      (∀ i, i < j → ∃ n c, readResult dev path fz (s + i * BLOCK_SIZE) = Except.ok (n, c, false)) →
      tryFoldAux (la, ca, false) (roundResults dev path fz T s) =
        Except.error ("read source file failed: " ++ path) := by
  intro j
  induction j with
  | zero =>
    intro T s la ca hT hfail hpre
    obtain ⟨t, rfl⟩ : ∃ t, T = t + 1 := ⟨T - 1, by omega⟩
    rw [roundResults_succ]
    rw [show s + 0 * BLOCK_SIZE = s from by omega] at hfail
    have hrr : readResult dev path fz s = Except.error ("read source file failed: " ++ path) := by
      unfold readResult
      rw [if_pos hfail]
    rw [hrr]
    rfl
  | succ j ih =>
    intro T s la ca hT hfail hpre
    obtain ⟨t, rfl⟩ : ∃ t, T = t + 1 := ⟨T - 1, by omega⟩
    rw [roundResults_succ]
    obtain ⟨n, c, hr0⟩ := hpre 0 (Nat.succ_pos j)
    rw [show s + 0 * BLOCK_SIZE = s from by omega] at hr0
    rw [hr0]
    show tryFoldAux (la + n, crc32c_combine ca c n, false)
      (roundResults dev path fz t (s + BLOCK_SIZE)) = _
    apply ih t (s + BLOCK_SIZE) (la + n) (crc32c_combine ca c n) (by omega)
    · rw [show s + BLOCK_SIZE + j * BLOCK_SIZE = s + (j + 1) * BLOCK_SIZE from by ring]
      exact hfail
    · intro i hi
      obtain ⟨n2, c2, hr2⟩ := hpre (i + 1) (by omega)
      refine ⟨n2, c2, ?_⟩
      rw [show s + BLOCK_SIZE + i * BLOCK_SIZE = s + (i + 1) * BLOCK_SIZE from by ring]
      exact hr2

/-- A result of `main` ending in an error is unchanged by appending further
input files: they are never reached, and the lines already printed stay. -/
theorem mainRun_append_error :
    ∀ (fs1 fs2 : List (String × Except String Device)) (fuel T : Nat) (fz : Bool)
      (l1 : List String) (e : String),
      mainRun fuel T fz fs1 = some (l1, Except.error e) →
      mainRun fuel T fz (fs1 ++ fs2) = some (l1, Except.error e) := by
  intro fs1
  induction fs1 with
  | nil =>
    intro fs2 fuel T fz l1 e h
    unfold mainRun at h
    injection h with h
    exact absurd (congrArg Prod.snd h) (by simp)
  | cons hd rest ih =>
    intro fs2 fuel T fz l1 e h
    obtain ⟨path, openR⟩ := hd
    rw [List.cons_append]
    unfold mainRun at h ⊢
    cases openR with
    | error e0 => exact h
    | ok dev =>
      simp only at h ⊢
      cases hp : parallelReadFuel fuel dev path T fz 0 0 with
      | none => rw [hp] at h; exact absurd h (by simp)
      | some r =>
        rw [hp] at h
        cases r with
        | error e2 => exact h
        | ok crc =>
          cases hm : mainRun fuel T fz rest with
          | none => rw [hm] at h; exact absurd h (by simp)
          | some p =>
            obtain ⟨lines, res⟩ := p
            rw [hm] at h
            cases res with
            | ok u =>
              exact absurd (congrArg Prod.snd (Option.some.inj h)) (by simp)
            | error e3 =>
              have hl : (toHex8 crc ++ " " ++ path) :: lines = l1 :=
                congrArg Prod.fst (Option.some.inj h)
              have he : e3 = e := by
                have h2 := congrArg Prod.snd (Option.some.inj h)
                simp only at h2
                injection h2
              rw [ih fs2 fuel T fz lines e3 hm]
              show some ((toHex8 crc ++ " " ++ path) :: lines, Except.error e3) =
                some (l1, Except.error e)
              rw [hl, he]

/-! ### Claim theorems -/

/-- On a healthy file with enough fuel, `parallel_read` returns the
sequential checksum, for every thread count at least 1. -/
theorem parallel_read_honest (content : List Nat) (path : String) (T : Nat) (fz : Bool)
    (hT : 1 ≤ T) :
    parallel_read content path T fz = some (Except.ok (crc32c content)) := by
  unfold parallel_read
  apply parallelReadFuel_honest content path T fz hT
  · omega
  · omega
  · rw [List.take_zero, crc32c_nil]

/-- Claim C1: for every file and every thread count at least 1, the checksum
returned by `parallel_read` equals the CRC32C of a single sequential pass
over the file's bytes; consequently any two thread counts at least 1 agree,
independently of which thread executes which offset (worker results are a
pure function of the offset in the model). -/
theorem claim_C1 (content : List Nat) (path : String) (fz : Bool) (T : Nat) (hT : 1 ≤ T) :
    parallel_read content path T fz = some (Except.ok (crc32c content)) ∧
    ∀ T2, 1 ≤ T2 → parallel_read content path T fz = parallel_read content path T2 fz := by
  refine ⟨parallel_read_honest content path T fz hT, fun T2 h2 => ?_⟩
  rw [parallel_read_honest content path T fz hT, parallel_read_honest content path T2 fz h2]

theorem claim_C1_witness :
    parallel_read [49, 50, 51, 52, 53, 54, 55, 56, 57] "f" 3 false =
      some (Except.ok (crc32c [49, 50, 51, 52, 53, 54, 55, 56, 57])) :=
  (claim_C1 [49, 50, 51, 52, 53, 54, 55, 56, 57] "f" false 3 (by decide)).1

/-- Claim C9: the CRC32C of the nine ASCII bytes of the string of digits one
to nine is 0xE3069283, and `parallel_read` produces this value for thread
count 1 and for every thread count greater than 1. -/
theorem claim_C9 :
    crc32c [49, 50, 51, 52, 53, 54, 55, 56, 57] = 0xE3069283 ∧
    parallel_read [49, 50, 51, 52, 53, 54, 55, 56, 57] "-" 1 false =
      some (Except.ok 0xE3069283) ∧
    ∀ T, 1 < T → parallel_read [49, 50, 51, 52, 53, 54, 55, 56, 57] "-" T false =
      some (Except.ok 0xE3069283) := by
  have hv : crc32c [49, 50, 51, 52, 53, 54, 55, 56, 57] = 0xE3069283 := by decide
  refine ⟨hv, ?_, fun T hT => ?_⟩
  · rw [parallel_read_honest _ _ _ _ (by decide), hv]
  · rw [parallel_read_honest _ _ _ _ (by omega), hv]

theorem claim_C9_witness :
    parallel_read [49, 50, 51, 52, 53, 54, 55, 56, 57] "-" 2 false =
      some (Except.ok 0xE3069283) :=
  claim_C9.2.2 2 (by decide)

/-- Claim C8: an empty file that opens successfully yields checksum 0, and
`main` prints the line of eight zero digits followed by the path. -/
theorem claim_C8 (path : String) (T : Nat) (fz : Bool) (hT : 1 ≤ T) (fuel : Nat)
    (hf : 1 ≤ fuel) :
    parallel_read [] path T fz = some (Except.ok 0) ∧
    mainRun fuel T fz [(path, Except.ok (honest []))] =
      some (["00000000 " ++ path], Except.ok ()) := by
  constructor
  · rw [parallel_read_honest [] path T fz hT, crc32c_nil]
  · have hp : parallelReadFuel fuel (honest []) path T fz 0 0 = some (Except.ok 0) := by
      have h := parallelReadFuel_honest [] path T fz hT fuel 0 0 (by simpa using hf)
        (by simp) (by rw [List.take_zero, crc32c_nil])
      rw [crc32c_nil] at h
      exact h
    have h2 : mainRun fuel T fz [(path, Except.ok (honest []))] =
        match parallelReadFuel fuel (honest []) path T fz 0 0 with
        | none => none
        | some (Except.error e) => some ([], Except.error e)
        | some (Except.ok crc) =>
          match mainRun fuel T fz [] with
          | none => none
          | some (lines, r) => some ((toHex8 crc ++ " " ++ path) :: lines, r) := rfl
    rw [h2, hp]
    show some ([toHex8 0 ++ " " ++ path], Except.ok ()) = _
    have hhex : toHex8 0 ++ " " = "00000000 " := by decide
    rw [hhex]

theorem claim_C8_witness :
    parallel_read [] "x" 1 false = some (Except.ok 0) ∧
    mainRun 1 1 false [("x", Except.ok (honest []))] = some (["00000000 x"], Except.ok ()) := by
  have h := claim_C8 "x" 1 false (by decide) 1 (by decide)
  have h2 := h.2
  rw [show ("00000000 " ++ "x" : String) = "00000000 x" from by decide] at h2
  exact ⟨h.1, h2⟩

/-- Claim C5: when the file length is a multiple of `T * BLOCK_SIZE`, the
round after full consumption yields only zero-length terminal results, its
aggregate is the zero-length pair, folding a zero-length aggregate with
`crc32c_combine` is the identity, and the final result is the sequential
checksum. -/
theorem claim_C5 (content : List Nat) (path : String) (T k : Nat) (fz : Bool) (hT : 1 ≤ T)
    (_hlen : content.length = k * (T * BLOCK_SIZE)) :
    (∀ i, i < T → readResult (honest content) path fz (content.length + i * BLOCK_SIZE) =
      Except.ok (0, 0, true)) ∧
    tryFold (roundResults (honest content) path fz T content.length) =
      Except.ok (0, 0, true) ∧
    (∀ c, crc32c_combine c 0 0 = c) ∧
    parallel_read content path T fz = some (Except.ok (crc32c content)) := by
  refine ⟨?_, ?_, crc32c_combine_zero, parallel_read_honest content path T fz hT⟩
  · intro i hi
    rw [readResult_honest]
    rw [show content.length - (content.length + i * BLOCK_SIZE) = 0 from by omega]
    rw [Nat.zero_min, List.take_zero, crc32c_nil]
    rw [show ((0 : Nat) != BLOCK_SIZE) = true from by decide]
  · have h := tryFoldAux_honest content path fz T content.length 0 []
    rw [crc32c_nil] at h
    unfold tryFold
    rw [h]
    rw [Nat.sub_self, Nat.zero_min, Nat.zero_add, List.take_zero, List.append_nil, crc32c_nil]
    rw [show decide (0 < T * BLOCK_SIZE) = true from by
      simp only [decide_eq_true_eq]
      rw [BLOCK_SIZE_eq]
      omega]

theorem claim_C5_witness :
    tryFold (roundResults (honest (List.replicate BLOCK_SIZE 0)) "p" false 1
        (List.replicate BLOCK_SIZE 0).length) = Except.ok (0, 0, true) ∧
    parallel_read (List.replicate BLOCK_SIZE 0) "p" 1 false =
      some (Except.ok (crc32c (List.replicate BLOCK_SIZE 0))) := by
  have h := claim_C5 (List.replicate BLOCK_SIZE 0) "p" 1 1 false (by decide)
    (by rw [List.length_replicate, Nat.one_mul, Nat.one_mul])
  exact ⟨h.2.1, h.2.2.2⟩

/-- Claim C6: with zero-fill enabled, a read at an offset inside the file
that delivers fewer bytes than `expect = min (file_size - offset,
BLOCK_SIZE)` is padded with zero bytes up to `expect` and reported as
`bytes_read = expect`; and on a device that always delivers all available
bytes, the checksum with zero-fill enabled equals the checksum with it
disabled. -/
theorem claim_C6 :
    (∀ (dev : Device) (path : String) (o : Nat), dev.fail o = false →
      o < dev.content.length →
      (readBytes dev o).length < min (dev.content.length - o) BLOCK_SIZE →
      readResult dev path true o =
        Except.ok (min (dev.content.length - o) BLOCK_SIZE,
          crc32c (readBytes dev o ++
            List.replicate (min (dev.content.length - o) BLOCK_SIZE -
              (readBytes dev o).length) 0),
          (min (dev.content.length - o) BLOCK_SIZE) != BLOCK_SIZE)) ∧
    (∀ (content : List Nat) (path : String) (T : Nat), 1 ≤ T →
      ¬ (BLOCK_SIZE ∣ content.length) →
      parallel_read content path T true = parallel_read content path T false) := by
  constructor
  · intro dev path o hfail ho hshort
    unfold readResult
    rw [if_neg (by rw [hfail]; exact Bool.false_ne_true)]
    rw [if_pos ⟨rfl, ho, hshort⟩]
  · intro content path T hT hnd
    unfold parallel_read
    exact parallelReadFuel_honest_fz content path T true (content.length + 1) 0 0

theorem claim_C6_witness :
    readResult (Device.mk [1, 2, 3] (fun _ => 1) (fun _ => false)) "p" true 0 =
      Except.ok (min ((Device.mk [1, 2, 3] (fun _ => 1) (fun _ => false)).content.length - 0)
          BLOCK_SIZE,
        crc32c (readBytes (Device.mk [1, 2, 3] (fun _ => 1) (fun _ => false)) 0 ++
          List.replicate (min ((Device.mk [1, 2, 3] (fun _ => 1)
            (fun _ => false)).content.length - 0) BLOCK_SIZE -
            (readBytes (Device.mk [1, 2, 3] (fun _ => 1) (fun _ => false)) 0).length) 0),
        (min ((Device.mk [1, 2, 3] (fun _ => 1) (fun _ => false)).content.length - 0)
          BLOCK_SIZE) != BLOCK_SIZE) ∧
    parallel_read [49, 50, 51, 52, 53, 54, 55, 56, 57] "p" 2 true =
      parallel_read [49, 50, 51, 52, 53, 54, 55, 56, 57] "p" 2 false := by
  constructor
  · exact claim_C6.1 (Device.mk [1, 2, 3] (fun _ => 1) (fun _ => false)) "p" 0 rfl
      (by decide) (by decide)
  · refine claim_C6.2 [49, 50, 51, 52, 53, 54, 55, 56, 57] "p" 2 (by decide) ?_
    intro hdvd
    have hle := Nat.le_of_dvd (by decide) hdvd
    rw [BLOCK_SIZE_eq] at hle
    exact absurd hle (by decide)

/-- Claim C7: within a round, worker `i` reads at `start + i * BLOCK_SIZE`
(slot `i` of the result vector), offsets are non-overlapping and strictly
increasing, the fold runs in ascending offset order from the accumulator
`(0, 0, not-finished)`, everything after the first terminal result is
discarded regardless of content, the length accounted by a round of
successful results is the sum of the `bytes_read` fields up to and
including the first terminal one, and on a non-terminal round the cursor
advances by exactly the folded length. -/
theorem claim_C7 :
    (∀ (dev : Device) (path : String) (fz : Bool) (T start i : Nat), i < T →
      (roundResults dev path fz T start)[i]? =
        some (readResult dev path fz (start + i * BLOCK_SIZE))) ∧
    (∀ start i j : Nat, i < j → start + i * BLOCK_SIZE + BLOCK_SIZE ≤ start + j * BLOCK_SIZE) ∧
    (∀ v, tryFold v = tryFoldAux (0, 0, false) v) ∧
    (∀ (la ca : Nat) (v : List (Except String (Nat × Nat × Bool))),
      tryFoldAux (la, ca, true) v = Except.ok (la, ca, true)) ∧
    (∀ rs : List (Nat × Nat × Bool), ∃ c f, tryFold (rs.map Except.ok) =
      Except.ok (consumedLen rs, c, f)) ∧
    (∀ (fuel : Nat) (dev : Device) (path : String) (T : Nat) (fz : Bool)
      (start crc len crcR : Nat),
      tryFold (roundResults dev path fz T start) = Except.ok (len, crcR, false) →
      parallelReadFuel (fuel + 1) dev path T fz start crc =
        parallelReadFuel fuel dev path T fz (start + len) (crc32c_combine crc crcR len)) := by
  refine ⟨?_, ?_, fun v => rfl, tryFoldAux_finished, tryFold_map_ok, ?_⟩
  · intro dev path fz T start i hi
    unfold roundResults
    rw [List.getElem?_map, List.getElem?_range hi]
    rfl
  · intro start i j hij
    rw [BLOCK_SIZE_eq]
    omega
  · intro fuel dev path T fz start crc len crcR h
    have heq : parallelReadFuel (fuel + 1) dev path T fz start crc =
        match tryFold (roundResults dev path fz T start) with
        | Except.error e => some (Except.error e)
        | Except.ok (len2, crcR2, finished) =>
          if finished then some (Except.ok (crc32c_combine crc crcR2 len2))
          else parallelReadFuel fuel dev path T fz (start + len2)
            (crc32c_combine crc crcR2 len2) := rfl
    rw [heq, h]
    rfl

theorem claim_C7_witness :
    (roundResults (honest [7]) "p" false 2 0)[1]? =
      some (readResult (honest [7]) "p" false (0 + 1 * BLOCK_SIZE)) ∧
    0 + 0 * BLOCK_SIZE + BLOCK_SIZE ≤ 0 + 1 * BLOCK_SIZE ∧
    tryFoldAux (3, 7, true) [Except.error "e"] = Except.ok (3, 7, true) :=
  ⟨claim_C7.1 (honest [7]) "p" false 2 0 1 (by decide),
    claim_C7.2.1 0 0 1 (by decide),
    claim_C7.2.2.2.1 3 7 [Except.error "e"]⟩

/-- Claim C10: with at least one worker thread the round loop returns on
every finite file for some finite fuel (each round either folds a terminal
result and returns, errors out, or strictly advances the cursor); with zero
threads (reachable through the public thread-count option) every round folds
zero results and consumes zero bytes, and the loop never returns. -/
theorem claim_C10 :
    (∀ (dev : Device) (path : String) (fz : Bool) (T : Nat), 1 ≤ T →
      ∃ fuel, (parallelReadFuel fuel dev path T fz 0 0).isSome = true) ∧
    (∀ (dev : Device) (path : String) (fz : Bool) (fuel start crc : Nat),
      parallelReadFuel fuel dev path 0 fz start crc = none) := by
  constructor
  · intro dev path fz T hT
    exact ⟨dev.content.length + 2,
      parallelReadFuel_isSome dev path fz T hT (dev.content.length + 2) 0 0 (by omega)⟩
  · intro dev path fz fuel s c
    exact parallelReadFuel_zero_threads dev path fz fuel s c

theorem claim_C10_witness :
    (∃ fuel, (parallelReadFuel fuel (honest [3]) "p" 1 false 0 0).isSome = true) ∧
    parallelReadFuel 5 (honest [3]) "p" 0 false 0 0 = none :=
  ⟨claim_C10.1 (honest [3]) "p" false 1 (by decide),
    claim_C10.2 (honest [3]) "p" false 5 0 0⟩

/-- Claim C2 counterexample: on the input list whose first file fails to
open and whose second is a healthy empty file, `main` prints nothing at all,
although the second file alone would have printed its checksum line — an
error for one file does prevent the processing and printing of the others,
contrary to the claim. -/
theorem claim_C2_counterexample :
    mainRun 2 1 false [("bad", Except.error "io"), ("good", Except.ok (honest []))] =
      some ([], Except.error "Failed to open file bad") ∧
    mainRun 2 1 false [("good", Except.ok (honest []))] =
      some (["00000000 good"], Except.ok ()) := by
  constructor
  · rfl
  · decide

/-- Claim C2 amended: an open or read error for one file aborts the whole
invocation — the files before the failing path are processed and their
printed lines remain valid, while the failing path and every later path
produce no output (appending further files after a failing run changes
nothing). -/
theorem claim_C2_amended (fs1 fs2 : List (String × Except String Device)) (fuel T : Nat)
    (fz : Bool) (l1 : List String) (e : String)
    (h : mainRun fuel T fz fs1 = some (l1, Except.error e)) :
    mainRun fuel T fz (fs1 ++ fs2) = some (l1, Except.error e) :=
  mainRun_append_error fs1 fs2 fuel T fz l1 e h

theorem claim_C2_witness :
    mainRun 2 1 false ([("bad", Except.error "io")] ++ [("good", Except.ok (honest []))]) =
      some ([], Except.error "Failed to open file bad") :=
  claim_C2_amended [("bad", Except.error "io")] [("good", Except.ok (honest []))] 2 1 false
    [] "Failed to open file bad" (by decide)

/-- Claim C4 counterexample: a one-byte file read with two workers, where
the read at the second worker's offset `BLOCK_SIZE` fails: worker 0 returns
a terminal short block, so the fold discards worker 1's error and
`parallel_read` succeeds — a worker read error in a dispatched round is
silently discarded when a terminal result precedes it, contrary to the
claim's "regardless of the error's offset". -/
theorem claim_C4_counterexample :
    (Device.mk [5] (fun _ => BLOCK_SIZE) (fun o => decide (BLOCK_SIZE ≤ o))).fail
        (0 + 1 * BLOCK_SIZE) = true ∧
    parallelReadFuel 2 (Device.mk [5] (fun _ => BLOCK_SIZE) (fun o => decide (BLOCK_SIZE ≤ o)))
        "p" 2 false 0 0 = some (Except.ok (crc32c [5])) := by
  constructor
  · decide
  · decide

/-- Claim C4 amended: a worker I/O error at an offset preceding the first
terminal result of its round makes `parallel_read` abort immediately — no
further rounds run, and the error is propagated with the failing path
attached as context; an error at an offset after a terminal result of the
same round is discarded instead. -/
theorem claim_C4_amended (dev : Device) (path : String) (fz : Bool) (T fuel start crc j : Nat)
    (hj : j < T) (hfail : dev.fail (start + j * BLOCK_SIZE) = true)
    (hpre : ∀ i, i < j → ∃ n c, readResult dev path fz (start + i * BLOCK_SIZE) =
      Except.ok (n, c, false)) :
    parallelReadFuel (fuel + 1) dev path T fz start crc =
      some (Except.error ("read source file failed: " ++ path)) := by
  have h := tryFoldAux_reaches_error dev path fz j T start 0 0 hj hfail hpre
  have heq : parallelReadFuel (fuel + 1) dev path T fz start crc =
      match tryFold (roundResults dev path fz T start) with
      | Except.error e => some (Except.error e)
      | Except.ok (len2, crcR2, finished) =>
        if finished then some (Except.ok (crc32c_combine crc crcR2 len2))
        else parallelReadFuel fuel dev path T fz (start + len2)
          (crc32c_combine crc crcR2 len2) := rfl
  rw [heq]
  rw [show tryFold (roundResults dev path fz T start) =
    Except.error ("read source file failed: " ++ path) from h]

theorem claim_C4_witness :
    parallelReadFuel 1 (Device.mk [] (fun _ => BLOCK_SIZE) (fun _ => true)) "p" 1 false 0 0 =
      some (Except.error ("read source file failed: " ++ "p")) :=
  claim_C4_amended (Device.mk [] (fun _ => BLOCK_SIZE) (fun _ => true)) "p" false 1 0 0 0 0
    (by decide) rfl (fun i hi => absurd hi (Nat.not_lt_zero i))

/-- Claim C3 is a code bug: the stdin loop never clears the line buffer and
`read_line` appends, so with the two lines a-newline and b-newline the code
hashes a-newline, then a-newline-a-newline-b-newline — every byte of an
earlier line is hashed again in each later iteration — instead of hashing
exactly the stdin bytes once.  At this input the printed value is the
CRC32C of the six bytes 97 10 97 10 98 10 and differs from the CRC32C of
the four stdin bytes 97 10 98 10 that the claim requires. -/
theorem claim_C3_bug :
    stdin_crc [[97, 10], [98, 10]] = crc32c [97, 10, 97, 10, 98, 10] ∧
    stdin_crc [[97, 10], [98, 10]] ≠ crc32c ([97, 10] ++ [98, 10]) := by
  constructor
  · decide
  · decide
